import Mathlib

/-!
Resource reaper: watchlist rebuild, sweep and schedule gate.

A shallow embedding of `pkg/reaper/reaper.go`.

* Go pointers to freshly built values are modelled by the values themselves; a nil pointer or
  nil interface is `none`.
* Everything outside the process (the provider clients, the wall clock) is a transition on an
  abstract world `W`, bundled in `Env`.  The lines written with `log.Println` / `log.Printf` are
  collected next to the world in `Sys`.
* `ctx` and `clientOptions` are passed through to the provider untouched and are part of `W`.
* A run-time panic (a method call on a nil interface) is the result `none`.
-/

namespace ResourceReaper

/-! ## Data model -/

/-- Instants of `time.Time`, counted from Go's zero instant: `t.IsZero()` is `t = 0` and
`a.After(b)` is `b < a`. -/
abbrev Instant := Int

/-- The enum `reaperconfig.ResourceType` (a protobuf enum, an `int32`). -/
abbrev ResourceType := Int

/-- Struct `resources.Resource`, as built by `resources.NewResource(name, zone, timeCreated, type)`;
the Go field `Type` is written `Type_`. -/
structure Resource where
  Name : String
  Zone : String
  TimeCreated : Instant
  Type_ : ResourceType
deriving DecidableEq, Repr

/-- Struct `Clock` of `reaper.go`: a frozen instant. -/
structure Clock where
  instant : Instant
deriving DecidableEq, Repr

/-- Modelled from the spec: `resources.WatchedResource` (package `resources` is not among the
sources): a `Resource` together with its `TTL` string and an optional frozen clock. -/
structure WatchedResource extends Resource where
  TTL : String
  Clock : Option Clock
deriving DecidableEq, Repr

/-- Message `reaperconfig.ResourceConfig`, with the fields set by `NewResourceConfig`. -/
structure ResourceConfig where
  ResourceType : ResourceType
  NameFilter : String
  SkipFilter : String
  Zones : List String
  Ttl : String
deriving DecidableEq, Repr

/-- Message `reaperconfig.ReaperConfig`, with the fields set by `NewReaperConfig`.  The protobuf
getters return the zero value on a nil message, so a nil config is the config with every field
empty. -/
structure ReaperConfig where
  Resources : List ResourceConfig
  Schedule : String
  SkipFilter : String
  ProjectId : String
  Uuid : String
deriving DecidableEq, Repr

/-- The interface `cron.Schedule`: its one method `Next`. -/
structure CronSchedule where
  Next : Instant → Instant

/-- A `clients.Client` handle; the variants are keyed by the resource type. -/
structure Client where
  resourceType : ResourceType
deriving DecidableEq, Repr

/-- The struct `Reaper`.  `Schedule` is an interface value (`none` is nil) and `Clock` is the
embedded `*Clock` (`none` is nil). -/
structure Reaper where
  UUID : String
  ProjectID : String
  Watchlist : List WatchedResource
  Schedule : Option CronSchedule
  lastRun : Instant
  Clock : Option Clock

/-- The key of a watchlist entry. -/
def WatchedResource.key (x : WatchedResource) : String × String := (x.Zone, x.Name)

/-! ## The environment -/

/-- What the reaper calls outside itself.  Each provider call and each reading of the wall clock
answers from the current world and moves to a next world, so that the answers are arbitrary and
may differ from call to call.  `mapOrder` is the order in which a `range` over the two Go maps of
`UpdateReaperConfig` yields their entries: Go leaves it unspecified, so it is any rearrangement. -/
structure Env (W : Type) where
  /-- Wall clock `time.Now()`. -/
  timeNow : W → Instant × W
  /-- Parser `cron.ParseStandard`. -/
  ParseStandard : String → Except String CronSchedule
  /-- Factory `clients.NewClient`. -/
  NewClient : ResourceType → W → Except String Client × W
  /-- Method `Client.Auth`: `none` is a nil error. -/
  Auth : Client → W → Option String × W
  /-- Method `Client.GetResources`. -/
  GetResources : Client → String → ResourceConfig → W → Except String (List Resource) × W
  /-- Method `Client.DeleteResource`: `none` is a nil error. -/
  DeleteResource : Client → String → Resource → W → Option String × W
  /-- Method `ResourceType.String`. -/
  typeString : ResourceType → String
  /-- Iteration order of the Go maps. -/
  mapOrder : W → List WatchedResource → List WatchedResource
  mapOrder_perm : ∀ w l, (mapOrder w l).Perm l

/-- The world together with the log lines written so far. -/
structure Sys (W : Type) where
  world : W
  log : List String

/-- Function `log.Println`. -/
def Sys.println {W : Type} (s : Sys W) (line : String) : Sys W :=
  { s with log := s.log ++ [line] }

/-- One call into the environment. -/
def Sys.call {W α : Type} (s : Sys W) (f : W → α × W) : α × Sys W :=
  ((f s.world).1, { s with world := (f s.world).2 })

/-! ## Clock -/

/-- Method `(*Clock).Now`: the wall clock on a nil receiver, the frozen instant otherwise. -/
def Clock.Now {W : Type} (env : Env W) (c : Option Clock) (s : Sys W) : Instant × Sys W :=
  match c with
  | none => s.call env.timeNow
  | some c => (c.instant, s)

/-- Method `(*Clock).FreezeClock`, as seen by the caller, who holds the pointer `clock`.  On a nil
receiver the method allocates a `Clock`, assigns it to its own receiver variable and sets the
instant there; the caller's pointer stays nil.  On a non-nil receiver the pointee is updated. -/
def Clock.FreezeClock (clock : Option Clock) (instant : Instant) : Option Clock :=
  match clock with
  | none => none
  | some c => some { c with instant := instant }

/-- Constructor `NewReaper`: `&Reaper{}`, every field at its zero value. -/
def NewReaper : Reaper :=
  { UUID := "", ProjectID := "", Watchlist := [], Schedule := none, lastRun := 0, Clock := none }

/-- The promoted method `reaper.Now()`, which is `reaper.Clock.Now()`. -/
def Reaper.Now {W : Type} (env : Env W) (reaper : Reaper) (s : Sys W) : Instant × Sys W :=
  Clock.Now env reaper.Clock s

/-- The promoted method `reaper.FreezeClock(instant)`, which is
`reaper.Clock.FreezeClock(instant)`. -/
def Reaper.FreezeClock (reaper : Reaper) (instant : Instant) : Reaper :=
  { reaper with Clock := Clock.FreezeClock reaper.Clock instant }

/-! ## Watched resources (package `resources`) -/

/-- Modelled from the spec: `WatchedResource.GetDeletionTime` (package `resources` is not among
the sources): parse `ttl` as a cron expression and return its next occurrence after the creation
time; fail if the ttl does not parse. -/
def WatchedResource.GetDeletionTime {W : Type} (env : Env W) (x : WatchedResource) :
    Except String Instant :=
  match env.ParseStandard x.TTL with
  | .error err => .error err
  | .ok schedule => .ok (schedule.Next x.TimeCreated)

/-- Modelled from the spec: `WatchedResource.IsReadyForDeletion` (package `resources` is not among
the sources): true iff `GetDeletionTime` succeeds and `now >= deletionTime`, where `now` is the
resource's frozen instant, or the wall clock when the clock is unset; a parse failure is logged
and is "not ready". -/
def WatchedResource.IsReadyForDeletion {W : Type} (env : Env W) (x : WatchedResource)
    (s : Sys W) : Bool × Sys W :=
  match x.GetDeletionTime env with
  | .error err => (false, s.println err)
  | .ok deletionTime =>
    let r := Clock.Now env x.Clock s
    (decide (deletionTime ≤ r.1), r.2)

/-- Modelled from the spec: `WatchedResource.FreezeClock` (package `resources` is not among the
sources): give the watched resource the frozen instant. -/
def WatchedResource.FreezeClock (x : WatchedResource) (instant : Instant) : WatchedResource :=
  { x with Clock := some { instant := instant } }

/-- Modelled from the spec: `resources.CreateWatchlist` (package `resources` is not among the
sources): one watched resource per listed resource, tagged with the ttl of the config, clock
unset. -/
def CreateWatchlist (rs : List Resource) (ttl : String) : List WatchedResource :=
  rs.map fun r => { toResource := r, TTL := ttl, Clock := none }

/-! ## Clients -/

/-- Helper `getAuthedClient`: a new client for the resource type, authenticated.  The Go function
also receives the reaper and does not use it. -/
def getAuthedClient {W : Type} (env : Env W) (resourceType : ResourceType) (s : Sys W) :
    Except String Client × Sys W :=
  match s.call (env.NewClient resourceType) with
  | (.error err, s1) =>
    (.error (env.typeString resourceType ++ " client failed with the following error: " ++ err), s1)
  | (.ok resourceClient, s1) =>
    match s1.call (env.Auth resourceClient) with
    | (some err, s2) =>
      (.error (env.typeString resourceType
        ++ " client failed authenticate with the following error: " ++ err), s2)
    | (none, s2) => (.ok resourceClient, s2)

/-! ## Sweep -/

/-- The loop of `SweepThroughResources` over the rest of the watchlist, with the
`updatedWatchlist` built so far. -/
def sweepLoop {W : Type} (env : Env W) (projectID : String) :
    List WatchedResource → List WatchedResource → Sys W → List WatchedResource × Sys W
  | [], updatedWatchlist, s => (updatedWatchlist, s)
  | watchedResource :: rest, updatedWatchlist, s =>
    match watchedResource.IsReadyForDeletion env s with
    | (true, s1) =>
      match getAuthedClient env watchedResource.Type_ s1 with
      | (.error err, s2) => sweepLoop env projectID rest updatedWatchlist (s2.println err)
      | (.ok resourceClient, s2) =>
        match s2.call (env.DeleteResource resourceClient projectID watchedResource.toResource) with
        | (some err, s3) =>
          sweepLoop env projectID rest updatedWatchlist
            (s3.println (env.typeString watchedResource.Type_
              ++ " client failed to delete resource " ++ watchedResource.Name
              ++ " with the following error: " ++ err))
        | (none, s3) =>
          sweepLoop env projectID rest updatedWatchlist
            (s3.println ("Deleted " ++ env.typeString watchedResource.Type_ ++ " resource "
              ++ watchedResource.Name ++ " in zone " ++ watchedResource.Zone))
    | (false, s1) => sweepLoop env projectID rest (updatedWatchlist ++ [watchedResource]) s1

/-- Method `Reaper.SweepThroughResources`. -/
def Reaper.SweepThroughResources {W : Type} (env : Env W) (reaper : Reaper) (s : Sys W) :
    Reaper × Sys W :=
  let r := sweepLoop env reaper.ProjectID reaper.Watchlist [] s
  ({ reaper with Watchlist := r.1 }, r.2)

/-! ## Schedule gate -/

/-- Helper `parseSchedule`: the parsed schedule, or nil (with a log line) when the string does
not parse. -/
def parseSchedule {W : Type} (env : Env W) (schedule : String) (s : Sys W) :
    Option CronSchedule × Sys W :=
  match env.ParseStandard schedule with
  | .error err => (none, s.println err)
  | .ok parsedSchedule => (some parsedSchedule, s)

/-- The body of the `if` of `RunOnSchedule`: sweep, then `lastRun = Clock.Now()`. -/
def runSweep {W : Type} (env : Env W) (reaper : Reaper) (s : Sys W) : Reaper × Sys W :=
  let swept := reaper.SweepThroughResources env s
  let now := Clock.Now env swept.1.Clock swept.2
  ({ swept.1 with lastRun := now.1 }, now.2)

/-- Method `Reaper.RunOnSchedule`.  The first statement calls `Next` on the interface value
`reaper.Schedule`; on a nil interface that is a run-time panic (`none`).  The condition is
short-circuit: the clock is read only when `lastRun` is not zero. -/
def Reaper.RunOnSchedule {W : Type} (env : Env W) (reaper : Reaper) (s : Sys W) :
    Option (Reaper × Sys W) :=
  match reaper.Schedule with
  | none => none
  | some schedule =>
    let nextRun := schedule.Next reaper.lastRun
    if reaper.lastRun = 0 then
      some (runSweep env reaper s)
    else
      let now := Clock.Now env reaper.Clock s
      if nextRun < now.1 then
        some (runSweep env reaper now.2)
      else
        some (reaper, now.2)

/-! ## Rebuild of the watchlist -/

/-- A Go `map[string]β`, as the list of its entries. -/
abbrev GoMap (β : Type) := List (String × β)

/-- The lookup `v, ok := m[k]`. -/
def GoMap.get? {β : Type} : GoMap β → String → Option β
  | [], _ => none
  | (k', v) :: rest, k => if k' = k then some v else GoMap.get? rest k

/-- The assignment `m[k] = v`. -/
def GoMap.set {β : Type} : GoMap β → String → β → GoMap β
  | [], k, v => [(k, v)]
  | (k', v') :: rest, k, v => if k' = k then (k, v) :: rest else (k', v') :: GoMap.set rest k v

/-- The two-level map `newWatchedResources`: zone, then name. -/
abbrev WatchedMap := GoMap (GoMap WatchedResource)

/-- The inner map `m[zone]`; a missing zone reads as the nil (empty) map. -/
def WatchedMap.zone (m : WatchedMap) (zone : String) : GoMap WatchedResource :=
  (GoMap.get? m zone).getD []

/-- The lookup `m[zone][name]`. -/
def WatchedMap.get? (m : WatchedMap) (zone name : String) : Option WatchedResource :=
  GoMap.get? (WatchedMap.zone m zone) name

/-- The assignment `m[zone][name] = v`, the inner map being shared by reference. -/
def WatchedMap.set (m : WatchedMap) (zone name : String) (v : WatchedResource) : WatchedMap :=
  GoMap.set m zone (GoMap.set (WatchedMap.zone m zone) name v)

/-- The final double loop "converting resources map into list", in the order of the entries. -/
def WatchedMap.flatten (m : WatchedMap) : List WatchedResource :=
  m.flatMap fun zone => zone.2.map Prod.snd

/-- Helper `maxTTL`: the TTL of the resource that is deleted later, `resourceB` on a tie. -/
def maxTTL {W : Type} (env : Env W) (resourceA resourceB : WatchedResource) :
    Except String String :=
  match resourceA.GetDeletionTime env with
  | .error err => .error ("Parsing TTL failed with following error: " ++ err)
  | .ok timeA =>
    match resourceB.GetDeletionTime env with
    | .error err => .error ("Parsing TTL failed with following error: " ++ err)
    | .ok timeB => if timeB < timeA then .ok resourceA.TTL else .ok resourceB.TTL

/-- The body of the duplicate check of `UpdateReaperConfig`, for one incoming resource. -/
def mergeStep {W : Type} (env : Env W) (resource : WatchedResource) (m : WatchedMap)
    (s : Sys W) : WatchedMap × Sys W :=
  let m1 := if (GoMap.get? m resource.Zone).isSome then m else GoMap.set m resource.Zone []
  match WatchedMap.get? m1 resource.Zone resource.Name with
  | some existing =>
    match maxTTL env resource existing with
    | .error err => (m1, s.println err)
    | .ok newTTL =>
      (WatchedMap.set m1 resource.Zone resource.Name { existing with TTL := newTTL }, s)
  | none => (WatchedMap.set m1 resource.Zone resource.Name resource, s)

/-- The loop `for _, resource := range watchedResources` of `UpdateReaperConfig`. -/
def mergeLoop {W : Type} (env : Env W) :
    List WatchedResource → WatchedMap → Sys W → WatchedMap × Sys W
  | [], m, s => (m, s)
  | resource :: rest, m, s =>
    let r := mergeStep env resource m s
    mergeLoop env rest r.1 r.2

/-- The loop `for _, resourceConfig := range resourceConfigs` of `UpdateReaperConfig`. -/
def updateLoop {W : Type} (env : Env W) (projectID : String) :
    List ResourceConfig → WatchedMap → Sys W → WatchedMap × Sys W
  | [], m, s => (m, s)
  | resourceConfig :: rest, m, s =>
    match getAuthedClient env resourceConfig.ResourceType s with
    | (.error err, s1) => updateLoop env projectID rest m (s1.println err)
    | (.ok resourceClient, s1) =>
      match s1.call (env.GetResources resourceClient projectID resourceConfig) with
      | (.error err, s2) =>
        updateLoop env projectID rest m
          (s2.println (env.typeString resourceConfig.ResourceType
            ++ " client failed to get resources with the following error: " ++ err))
      | (.ok filteredResources, s2) =>
        let r := mergeLoop env (CreateWatchlist filteredResources resourceConfig.Ttl) m s2
        updateLoop env projectID rest r.1 r.2

/-- The three guarded assignments at the head of `UpdateReaperConfig`; Go's `len` of a string is
its number of bytes. -/
def applyFields {W : Type} (env : Env W) (reaper : Reaper) (config : ReaperConfig) (s : Sys W) :
    Reaper × Sys W :=
  let reaper1 :=
    if 0 < config.ProjectId.utf8ByteSize then { reaper with ProjectID := config.ProjectId }
    else reaper
  let reaper2 :=
    if 0 < config.Uuid.utf8ByteSize then { reaper1 with UUID := config.Uuid } else reaper1
  if 0 < config.Schedule.utf8ByteSize then
    let parsed := parseSchedule env config.Schedule s
    ({ reaper2 with Schedule := parsed.1 }, parsed.2)
  else (reaper2, s)

/-- Method `Reaper.UpdateReaperConfig`. -/
def Reaper.UpdateReaperConfig {W : Type} (env : Env W) (reaper : Reaper) (config : ReaperConfig)
    (s : Sys W) : Reaper × Sys W :=
  let head := applyFields env reaper config s
  let r := updateLoop env head.1.ProjectID config.Resources [] head.2
  ({ head.1 with Watchlist := env.mapOrder r.2.world (WatchedMap.flatten r.1) }, r.2)

/-- Method `Reaper.FreezeTime`: freeze the clock of every watched resource. -/
def Reaper.FreezeTime (reaper : Reaper) (instant : Instant) : Reaper :=
  { reaper with Watchlist := reaper.Watchlist.map fun x => x.FreezeClock instant }

/-! ## The listings of one round -/

/-- The resources returned in one round of `UpdateReaperConfig`, in call order: for each
`ResourceConfig` in turn, a client is obtained and authenticated and `GetResources` is called;
when all three succeed the listed resources count, each tagged with the ttl of its config, and
when one of them fails the config contributes nothing. -/
def listedThisRound {W : Type} (env : Env W) (projectID : String) :
    List ResourceConfig → W → List WatchedResource
  | [], _ => []
  | resourceConfig :: rest, w =>
    match env.NewClient resourceConfig.ResourceType w with
    | (.error _, w1) => listedThisRound env projectID rest w1
    | (.ok resourceClient, w1) =>
      match env.Auth resourceClient w1 with
      | (some _, w2) => listedThisRound env projectID rest w2
      | (none, w2) =>
        match env.GetResources resourceClient projectID resourceConfig w2 with
        | (.error _, w3) => listedThisRound env projectID rest w3
        | (.ok filteredResources, w3) =>
          CreateWatchlist filteredResources resourceConfig.Ttl
            ++ listedThisRound env projectID rest w3

/-! ## Reachable reaper states -/

/-- The reaper states reachable from `NewReaper` by calls to `UpdateReaperConfig`,
`SweepThroughResources`, `RunOnSchedule` (when it returns) and `FreezeTime`, in any environment
and from any world. -/
inductive Reachable (W : Type) : Reaper → Prop
  | init : Reachable W NewReaper
  | update {reaper : Reaper} (env : Env W) (config : ReaperConfig) (s : Sys W) :
      Reachable W reaper → Reachable W (reaper.UpdateReaperConfig env config s).1
  | sweep {reaper : Reaper} (env : Env W) (s : Sys W) :
      Reachable W reaper → Reachable W (reaper.SweepThroughResources env s).1
  | run {reaper : Reaper} (env : Env W) (s : Sys W) (next : Reaper × Sys W) :
      Reachable W reaper → reaper.RunOnSchedule env s = some next → Reachable W next.1
  | freeze {reaper : Reaper} (instant : Instant) :
      Reachable W reaper → Reachable W (reaper.FreezeTime instant)

/-! ## A concrete environment

Instants are minutes since the zero instant.  The world counts the provider calls made. -/

/-- A stand-in for `cron.ParseStandard` that knows two expressions, `@hourly` (the next full
hour) and `@daily` (the next midnight); every other string is a parse error. -/
def demoParse (expr : String) : Except String CronSchedule :=
  if expr = "@hourly" then .ok { Next := fun t => (t / 60 + 1) * 60 }
  else if expr = "@daily" then .ok { Next := fun t => (t / 1440 + 1) * 1440 }
  else .error ("cannot parse " ++ expr)

/-- A provider with a fixed inventory.  The wall clock always reads `wall`; `authFails` and
`deleteFails` make every `Auth` and every `DeleteResource` call fail; a listing returns the
inventory of the zones of the config, and fails for the name filter `unreachable`. -/
def demoEnv (wall : Instant) (authFails deleteFails : Bool) (inventory : List Resource) :
    Env Nat where
  timeNow w := (wall, w)
  ParseStandard := demoParse
  NewClient ty w := (if ty = 0 then .ok { resourceType := ty } else .error "unknown type", w)
  Auth _ w := (if authFails then some "no credentials" else none, w + 1)
  GetResources _ _ config w :=
    (if config.NameFilter = "unreachable" then .error "listing failed"
      else .ok (inventory.filter fun r => decide (r.Zone ∈ config.Zones)), w + 1)
  DeleteResource _ _ _ w := (if deleteFails then some "delete failed" else none, w + 1)
  typeString ty := if ty = 0 then "GCE_VM" else "UNKNOWN"
  mapOrder _ l := l
  mapOrder_perm _ l := List.Perm.refl l

/-- The start of a run: world `0`, empty log. -/
def demoStart : Sys Nat := { world := 0, log := [] }

/-- A watched VM `vm-1` in zone `a`, created at instant `0`, with ttl `@hourly` (deletion instant
`60`) and its clock frozen at `100`. -/
def demoExpired : WatchedResource :=
  { Name := "vm-1", Zone := "a", TimeCreated := 0, Type_ := 0, TTL := "@hourly",
    Clock := some { instant := 100 } }

/-- A watched VM `vm-2` in zone `a`, created at instant `0`, with ttl `@daily` (deletion instant
`1440`) and its clock frozen at `100`. -/
def demoFresh : WatchedResource :=
  { Name := "vm-2", Zone := "a", TimeCreated := 0, Type_ := 0, TTL := "@daily",
    Clock := some { instant := 100 } }

/-- A reaper watching `demoExpired` and `demoFresh`, with the schedule `@hourly`, last run at
`lastRun`, clock unset. -/
def demoReaper (lastRun : Instant) : Reaper :=
  { UUID := "UUID_1", ProjectID := "testProject", Watchlist := [demoExpired, demoFresh],
    Schedule := some { Next := fun t => (t / 60 + 1) * 60 }, lastRun := lastRun, Clock := none }

/-- An outer map with one zone `a` that holds `vm-1` with the ttl `never`, which does not
parse. -/
def demoMap : WatchedMap :=
  [("a", [("vm-1", { demoExpired with TTL := "never" })])]

/-- The inventory of the demo provider: `vm-1` and `vm-2` in zone `a`, `vm-3` in zone `b`, all
created at instant `0`. -/
def demoInventory : List Resource :=
  [{ Name := "vm-1", Zone := "a", TimeCreated := 0, Type_ := 0 },
   { Name := "vm-2", Zone := "a", TimeCreated := 0, Type_ := 0 },
   { Name := "vm-3", Zone := "b", TimeCreated := 0, Type_ := 0 }]

/-- A config with three resource configs: zones `a` and `b` with ttl `@hourly`, a listing that
fails, and zone `a` again with ttl `@daily`. -/
def demoConfig : ReaperConfig :=
  { Resources :=
      [{ ResourceType := 0, NameFilter := "vm", SkipFilter := "", Zones := ["a", "b"],
         Ttl := "@hourly" },
       { ResourceType := 0, NameFilter := "unreachable", SkipFilter := "", Zones := ["b"],
         Ttl := "@daily" },
       { ResourceType := 0, NameFilter := "vm", SkipFilter := "", Zones := ["a"],
         Ttl := "@daily" }],
    Schedule := "@hourly", SkipFilter := "", ProjectId := "testProject", Uuid := "UUID_1" }

/-- The demo provider with its inventory: every call succeeds and the wall clock reads `100`. -/
def demoProvider : Env Nat := demoEnv 100 false false demoInventory

/-! ## Well-formed maps -/

/-- An inner map of the zone `zone` is well formed: its names are distinct and every entry is
stored under its own zone and name. -/
def InnerOK (zone : String) (inner : GoMap WatchedResource) : Prop :=
  (inner.map Prod.fst).Nodup ∧ ∀ q ∈ inner, q.2.Zone = zone ∧ q.2.Name = q.1

/-- The two-level map is well formed: its zones are distinct and every inner map is. -/
def MapOK (m : WatchedMap) : Prop :=
  (m.map Prod.fst).Nodup ∧ ∀ p ∈ m, InnerOK p.1 p.2

/-! ## The state of one key during the merge -/

/-- The state of the key `(z, n)` once the resources `seen` have been merged into `m`, all the
resources with that key having the creation time `created`: when none of them has the key the
map has no entry for it; otherwise the entry has a ttl of one of them, and its deletion instant
is not before the deletion instant of any of them. -/
def MaxWins {W : Type} (env : Env W) (z n : String) (created : Instant) (m : WatchedMap)
    (seen : List WatchedResource) : Prop :=
  match WatchedMap.get? m z n with
  | none => ∀ x ∈ seen, ¬ (x.Zone = z ∧ x.Name = n)
  | some e =>
    e.TimeCreated = created
    ∧ (∃ x ∈ seen, x.Zone = z ∧ x.Name = n ∧ x.TTL = e.TTL)
    ∧ ∃ d, e.GetDeletionTime env = .ok d
        ∧ ∀ x ∈ seen, x.Zone = z → x.Name = n →
            ∃ dx, x.GetDeletionTime env = .ok dx ∧ dx ≤ d

/-! ## Discovery of GCE instances (`pkg/clients/gce.go`) -/

/-- An item of the instance list of the compute API (`gce.Instance`), with the two fields that
`GetResources` reads. -/
structure Instance where
  Name : String
  CreationTimestamp : String
deriving DecidableEq, Repr

/-- Struct `GCEClient`, through the one call that `GetResources` makes on its authenticated
service: `client.Client.Instances.List(projectID, zone).Do()`, which answers with the items of
the zone or with an error. -/
structure GCEClient (W : Type) where
  InstancesList : String → String → W → Except String (List Instance) × W

/-- What `GetResources` uses from outside `gce.go`. -/
structure GCELib where
  /-- Function `time.Parse(time.RFC3339, value)`, with its two results: the instant and a nil
  error, or the zero instant and the parse error. -/
  timeParse : String → Instant × Option String
  /-- Enum value `reaperpb.ResourceType_GCE_VM`. -/
  ResourceType_GCE_VM : ResourceType
  /-- Function `resources.ShouldAddResourceToWatchlist(resource, nameFilter, skipFilter)`. -/
  ShouldAddResourceToWatchlist : Resource → String → String → Bool

/-- The loop `for _, instance := range instancesInZone.Items` of `GetResources`, with the
`instances` collected so far; the Go variable `instance` is written `item`.  The second result
of `time.Parse` is assigned to `_`. -/
def gceItemsLoop (lib : GCELib) (zone : String) (config : ResourceConfig) :
    List Instance → List Resource → List Resource
  | [], instances => instances
  | item :: rest, instances =>
    let timeCreated := (lib.timeParse item.CreationTimestamp).1
    let parsedResource : Resource :=
      { Name := item.Name, Zone := zone, TimeCreated := timeCreated,
        Type_ := lib.ResourceType_GCE_VM }
    if lib.ShouldAddResourceToWatchlist parsedResource config.NameFilter config.SkipFilter then
      gceItemsLoop lib zone config rest (instances ++ [parsedResource])
    else
      gceItemsLoop lib zone config rest instances

/-- The loop `for _, zone := range zones` of `GetResources`: a listing that fails ends the call
with that error. -/
def gceZonesLoop {W : Type} (client : GCEClient W) (lib : GCELib) (projectID : String)
    (config : ResourceConfig) :
    List String → List Resource → Sys W → Except String (List Resource) × Sys W
  | [], instances, s => (.ok instances, s)
  | zone :: rest, instances, s =>
    match s.call (client.InstancesList projectID zone) with
    | (.error err, s1) => (.error err, s1)
    | (.ok items, s1) =>
      gceZonesLoop client lib projectID config rest
        (gceItemsLoop lib zone config items instances) s1

/-- Method `GCEClient.GetResources`. -/
def GCEClient.GetResources {W : Type} (client : GCEClient W) (lib : GCELib)
    (projectID : String) (config : ResourceConfig) (s : Sys W) :
    Except String (List Resource) × Sys W :=
  gceZonesLoop client lib projectID config config.Zones [] s

/-- A stand-in for `time.Parse(time.RFC3339, value)` that knows one timestamp, one hour after
the zero instant; every other string is a parse error, with the zero instant as the value. -/
def demoTimeParse (value : String) : Instant × Option String :=
  if value = "0001-01-01T01:00:00Z" then (60, none)
  else (0, some ("cannot parse " ++ value ++ " as RFC 3339"))

/-- A library whose filter keeps every resource. -/
def demoLib : GCELib :=
  { timeParse := demoTimeParse, ResourceType_GCE_VM := 0,
    ShouldAddResourceToWatchlist := fun _ _ _ => true }

/-- A compute service whose zone `a` holds `vm-1`, with the creation timestamp `yesterday`,
and `vm-2`, with a timestamp in RFC 3339; every other zone is empty. -/
def demoGCE : GCEClient Nat :=
  { InstancesList := fun _ zone w =>
      (if zone = "a" then
          .ok [{ Name := "vm-1", CreationTimestamp := "yesterday" },
               { Name := "vm-2", CreationTimestamp := "0001-01-01T01:00:00Z" }]
        else .ok [], w + 1) }

/-- A resource config for the zone `a`, with empty filters. -/
def demoGCEConfig : ResourceConfig :=
  { ResourceType := 0, NameFilter := "", SkipFilter := "", Zones := ["a"], Ttl := "@daily" }

/-! ## Sweep: what stays on the watchlist -/

/-- The loop of the sweep appends to `updatedWatchlist` exactly the resources that are not ready,
whatever the clients answer. -/
theorem sweepLoop_fst {W : Type} (env : Env W) (projectID : String)
    (ready : WatchedResource → Bool) (l : List WatchedResource) :
    (∀ x ∈ l, ∀ s : Sys W, (x.IsReadyForDeletion env s).1 = ready x) →
    ∀ (acc : List WatchedResource) (s : Sys W),
      (sweepLoop env projectID l acc s).1 = acc ++ l.filter fun x => !ready x := by
  induction l with
  | nil => intro _ acc s; simp [sweepLoop]
  | cons x rest ih =>
    intro h acc s
    have hrest : ∀ y ∈ rest, ∀ s : Sys W, (y.IsReadyForDeletion env s).1 = ready y :=
      fun y hy => h y (List.mem_cons_of_mem _ hy)
    have hx := h x (List.mem_cons_self _ _) s
    unfold sweepLoop
    rcases hr : x.IsReadyForDeletion env s with ⟨b, s1⟩
    rw [hr] at hx
    simp only at hx
    subst hx
    cases hb : ready x with
    | false => simp [ih hrest, hb]
    | true =>
      simp only
      split
      · simp [ih hrest, hb]
      · split <;> simp [ih hrest, hb]

/-- C1: when every client acquisition and every `DeleteResource` call succeeds, the watchlist
after `SweepThroughResources` is the previous watchlist filtered to the resources for which
`IsReadyForDeletion` is false, in their order and unchanged.  Here `ready x` is the answer of
`IsReadyForDeletion` on `x`.  (The equation does not depend on the two hypotheses on the
clients, see `sweepLoop_fst`.) -/
theorem sweep_keeps_exactly_the_not_ready {W : Type} (env : Env W) (reaper : Reaper) (s : Sys W)
    (ready : WatchedResource → Bool)
    (hready : ∀ x ∈ reaper.Watchlist, ∀ s' : Sys W, (x.IsReadyForDeletion env s').1 = ready x)
    (_hclient : ∀ x ∈ reaper.Watchlist, ∀ s' : Sys W,
      ∃ c, (getAuthedClient env x.Type_ s').1 = .ok c)
    (_hdelete : ∀ (c : Client) (projectID : String) (r : Resource) (w : W),
      (env.DeleteResource c projectID r w).1 = none) :
    (reaper.SweepThroughResources env s).1.Watchlist
      = reaper.Watchlist.filter fun x => !ready x := by
  have hloop := sweepLoop_fst env reaper.ProjectID ready reaper.Watchlist hready [] s
  rw [List.nil_append] at hloop
  unfold Reaper.SweepThroughResources
  exact hloop

/-- Witness of C1: the demo reaper, swept with a provider whose calls all succeed. -/
theorem sweep_keeps_exactly_the_not_ready_witness :
    ((demoReaper 0).SweepThroughResources (demoEnv 100 false false []) demoStart).1.Watchlist
      = (demoReaper 0).Watchlist.filter fun x => !decide (x = demoExpired) :=
  sweep_keeps_exactly_the_not_ready (demoEnv 100 false false []) (demoReaper 0) demoStart
    (fun x => decide (x = demoExpired))
    (by
      intro x hx s'
      simp only [demoReaper, List.mem_cons, List.mem_singleton, List.not_mem_nil, or_false] at hx
      rcases hx with rfl | rfl <;> rfl)
    (by
      intro x hx s'
      simp only [demoReaper, List.mem_cons, List.mem_singleton, List.not_mem_nil, or_false] at hx
      rcases hx with rfl | rfl <;> exact ⟨_, rfl⟩)
    (by intro c projectID r w; rfl)

/-- C2, evaluated: `demoExpired` is ready for deletion; when every `DeleteResource` call fails,
and likewise when every `Auth` call fails, the sweep logs the failure and the resource is no
longer on the watchlist. -/
theorem sweep_drops_resource_whose_deletion_failed :
    (demoExpired.IsReadyForDeletion (demoEnv 100 false true []) demoStart).1 = true
    ∧ ((demoReaper 0).SweepThroughResources (demoEnv 100 false true []) demoStart).1.Watchlist
        = [demoFresh]
    ∧ ((demoReaper 0).SweepThroughResources (demoEnv 100 false true []) demoStart).2.log
        = ["GCE_VM client failed to delete resource vm-1 with the following error: delete failed"]
    ∧ ((demoReaper 0).SweepThroughResources (demoEnv 100 true false []) demoStart).1.Watchlist
        = [demoFresh]
    ∧ ((demoReaper 0).SweepThroughResources (demoEnv 100 true false []) demoStart).2.log
        = ["GCE_VM client failed authenticate with the following error: no credentials"] := by
  refine ⟨rfl, rfl, ?_, rfl, ?_⟩ <;> decide

/-! ## The fields set by `UpdateReaperConfig` -/

/-- Go's `len(str) > 0` says that the string is not empty. -/
theorem utf8ByteSize_pos_iff (str : String) : 0 < str.utf8ByteSize ↔ str ≠ "" := by
  cases str with
  | mk l =>
    cases l with
    | nil => simp [String.utf8ByteSize, String.utf8ByteSize.go]
    | cons c cs =>
      have hne : (⟨c :: cs⟩ : String) ≠ "" := by
        intro h
        have hdata := congrArg String.data h
        simp at hdata
      simp only [ne_eq, hne, not_false_eq_true, iff_true]
      simp only [String.utf8ByteSize, String.utf8ByteSize.go]
      have hc := Char.utf8Size_pos c
      omega

/-- The rebuild of the watchlist leaves the other fields as `applyFields` set them. -/
theorem updateReaperConfig_fields {W : Type} (env : Env W) (reaper : Reaper)
    (config : ReaperConfig) (s : Sys W) :
    (reaper.UpdateReaperConfig env config s).1
      = { (applyFields env reaper config s).1 with
          Watchlist := (reaper.UpdateReaperConfig env config s).1.Watchlist } := rfl

/-- The schedule that `parseSchedule` returns is the one that `cron.ParseStandard` parsed, and
nil when the parser fails; a failure is logged. -/
theorem parseSchedule_eq {W : Type} (env : Env W) (schedule : String) (s : Sys W) :
    parseSchedule env schedule s
      = match env.ParseStandard schedule with
        | .ok parsedSchedule => (some parsedSchedule, s)
        | .error err => (none, s.println err) := by
  unfold parseSchedule
  cases env.ParseStandard schedule <;> rfl

/-- C7: after `UpdateReaperConfig` the `ProjectID` is the one of the config when that is not
empty and the previous one otherwise; the same holds for `UUID`; the `Schedule` is the previous
one when the schedule string of the config is empty, and otherwise it is the schedule that
`cron.ParseStandard` parses from that string, or nil when the string does not parse.  `lastRun`
and the clock are never touched. -/
theorem update_overwrites_nonempty_fields_only {W : Type} (env : Env W) (reaper : Reaper)
    (config : ReaperConfig) (s : Sys W) :
    (reaper.UpdateReaperConfig env config s).1.ProjectID
        = (if config.ProjectId = "" then reaper.ProjectID else config.ProjectId)
    ∧ (reaper.UpdateReaperConfig env config s).1.UUID
        = (if config.Uuid = "" then reaper.UUID else config.Uuid)
    ∧ (reaper.UpdateReaperConfig env config s).1.Schedule
        = (if config.Schedule = "" then reaper.Schedule
            else match env.ParseStandard config.Schedule with
              | .ok parsedSchedule => some parsedSchedule
              | .error _ => none)
    ∧ (reaper.UpdateReaperConfig env config s).1.lastRun = reaper.lastRun
    ∧ (reaper.UpdateReaperConfig env config s).1.Clock = reaper.Clock := by
  rw [updateReaperConfig_fields]
  simp only [applyFields, utf8ByteSize_pos_iff, parseSchedule_eq]
  by_cases hp : config.ProjectId = "" <;> by_cases hu : config.Uuid = ""
    <;> by_cases hs : config.Schedule = ""
    <;> cases hparse : env.ParseStandard config.Schedule
    <;> simp [hp, hu, hs]

/-- The demo config carries the schedule string `@hourly`: after the update the reaper has a
schedule, and from instant `30` its next run is at `60`; the project and the uuid are those of
the config. -/
theorem update_installs_parsed_schedule_demo :
    ((NewReaper.UpdateReaperConfig demoProvider demoConfig demoStart).1.Schedule.map
        fun schedule => schedule.Next 30) = some 60
    ∧ (NewReaper.UpdateReaperConfig demoProvider demoConfig demoStart).1.ProjectID = "testProject"
    ∧ (NewReaper.UpdateReaperConfig demoProvider demoConfig demoStart).1.UUID = "UUID_1" := by
  refine ⟨by decide, by decide, by decide⟩

/-! ## The schedule gate -/

/-- The sweep changes the watchlist only. -/
theorem sweepThroughResources_fields {W : Type} (env : Env W) (reaper : Reaper) (s : Sys W) :
    (reaper.SweepThroughResources env s).1
      = { reaper with Watchlist := (reaper.SweepThroughResources env s).1.Watchlist } := rfl

/-- C8: for a reaper with a parsed schedule whose clock reads `now`, `RunOnSchedule` returns;
when `lastRun` is zero or `now` is strictly after `Schedule.Next(lastRun)` the new state is the
state after `SweepThroughResources` with `lastRun` set to `now`; otherwise, in particular when
`now` equals `Schedule.Next(lastRun)`, the reaper is unchanged. -/
theorem runOnSchedule_gate {W : Type} (env : Env W) (reaper : Reaper) (s : Sys W)
    (schedule : CronSchedule) (now : Instant)
    (hschedule : reaper.Schedule = some schedule)
    (hnow : ∀ s' : Sys W, (Clock.Now env reaper.Clock s').1 = now) :
    (reaper.lastRun = 0 ∨ schedule.Next reaper.lastRun < now →
      (reaper.RunOnSchedule env s).map Prod.fst
        = some { (reaper.SweepThroughResources env
                    (if reaper.lastRun = 0 then s else (Clock.Now env reaper.Clock s).2)).1
                  with lastRun := now })
    ∧ (¬ (reaper.lastRun = 0 ∨ schedule.Next reaper.lastRun < now) →
      reaper.RunOnSchedule env s = some (reaper, (Clock.Now env reaper.Clock s).2)) := by
  have hclock : ∀ s1 : Sys W, (reaper.SweepThroughResources env s1).1.Clock = reaper.Clock :=
    fun _ => rfl
  constructor
  · intro hgate
    by_cases hzero : reaper.lastRun = 0
    · simp [Reaper.RunOnSchedule, hschedule, hzero, runSweep, hclock, hnow]
    · have hlate : schedule.Next reaper.lastRun < now := hgate.resolve_left hzero
      simp [Reaper.RunOnSchedule, hschedule, hzero, runSweep, hclock, hnow, hlate]
  · intro hgate
    have hzero : ¬ reaper.lastRun = 0 := fun h => hgate (Or.inl h)
    have hlate : ¬ schedule.Next reaper.lastRun < now := fun h => hgate (Or.inr h)
    simp [Reaper.RunOnSchedule, hschedule, hzero, hnow, hlate]

/-- Witness of C8: the demo reaper last ran at `30`, so its next run is at `60`; the wall clock
reads `60`, which is not strictly after, and the reaper is unchanged. -/
theorem runOnSchedule_gate_witness :
    ((demoReaper 30).lastRun = 0 ∨ ((30 : Int) / 60 + 1) * 60 < 60 →
      ((demoReaper 30).RunOnSchedule (demoEnv 60 false false []) demoStart).map Prod.fst
        = some { ((demoReaper 30).SweepThroughResources (demoEnv 60 false false [])
                    (if (demoReaper 30).lastRun = 0 then demoStart
                      else (Clock.Now (demoEnv 60 false false []) (demoReaper 30).Clock
                        demoStart).2)).1
                  with lastRun := 60 })
    ∧ (¬ ((demoReaper 30).lastRun = 0 ∨ ((30 : Int) / 60 + 1) * 60 < 60) →
      (demoReaper 30).RunOnSchedule (demoEnv 60 false false []) demoStart
        = some (demoReaper 30,
            (Clock.Now (demoEnv 60 false false []) (demoReaper 30).Clock demoStart).2)) :=
  runOnSchedule_gate (demoEnv 60 false false []) (demoReaper 30) demoStart
    { Next := fun t => (t / 60 + 1) * 60 } 60 rfl (fun _ => rfl)

/-- C9, evaluated: a fresh reaper is configured with the schedule string `TestSchedule`, which
does not parse, so its `Schedule` is nil; `RunOnSchedule` then panics on `Schedule.Next`, both
with `lastRun` unset and with `lastRun` set, instead of returning with the gate closed. -/
theorem runOnSchedule_panics_without_schedule :
    (NewReaper.UpdateReaperConfig (demoEnv 100 false false [])
        { Resources := [], Schedule := "TestSchedule", SkipFilter := "",
          ProjectId := "testProject", Uuid := "UUID_1" } demoStart).1.Schedule.isNone = true
    ∧ (NewReaper.UpdateReaperConfig (demoEnv 100 false false [])
        { Resources := [], Schedule := "TestSchedule", SkipFilter := "",
          ProjectId := "testProject", Uuid := "UUID_1" } demoStart).1.RunOnSchedule
          (demoEnv 100 false false []) demoStart = none
    ∧ Reaper.RunOnSchedule (demoEnv 100 false false [])
        { (NewReaper.UpdateReaperConfig (demoEnv 100 false false [])
            { Resources := [], Schedule := "TestSchedule", SkipFilter := "",
              ProjectId := "testProject", Uuid := "UUID_1" } demoStart).1 with lastRun := 30 }
          demoStart = none :=
  ⟨rfl, rfl, rfl⟩

/-! ## The clock of the reaper -/

/-- C10, evaluated: a reaper just returned by `NewReaper` has a nil clock; after
`FreezeClock(5)` its clock is still nil and `Now()` reads the wall clock (`1000` here), not `5`. -/
theorem freezeClock_on_new_reaper_is_lost :
    (NewReaper.FreezeClock 5).Clock = none
    ∧ ((NewReaper.FreezeClock 5).Now (demoEnv 1000 false false []) demoStart).1 = 1000 :=
  ⟨rfl, rfl⟩

/-! ## Go maps -/

theorem GoMap.get?_set_self {β : Type} (m : GoMap β) (k : String) (v : β) :
    GoMap.get? (GoMap.set m k v) k = some v := by
  induction m with
  | nil => simp [GoMap.set, GoMap.get?]
  | cons p rest ih =>
    obtain ⟨k', v'⟩ := p
    by_cases h : k' = k <;> simp [GoMap.set, GoMap.get?, h, ih]

theorem GoMap.get?_set_ne {β : Type} (m : GoMap β) (k k' : String) (v : β) (hne : k' ≠ k) :
    GoMap.get? (GoMap.set m k v) k' = GoMap.get? m k' := by
  induction m with
  | nil => simp [GoMap.set, GoMap.get?, Ne.symm hne]
  | cons p rest ih =>
    obtain ⟨k0, v0⟩ := p
    by_cases h : k0 = k
    · subst h
      simp [GoMap.set, GoMap.get?, Ne.symm hne]
    · by_cases h' : k0 = k'
      · subst h'
        simp [GoMap.set, GoMap.get?, h]
      · simp [GoMap.set, GoMap.get?, h, h', ih]

theorem GoMap.mem_of_get? {β : Type} (m : GoMap β) (k : String) (v : β) :
    GoMap.get? m k = some v → (k, v) ∈ m := by
  induction m with
  | nil => simp [GoMap.get?]
  | cons p rest ih =>
    obtain ⟨k0, v0⟩ := p
    by_cases h : k0 = k
    · subst h
      simp only [GoMap.get?, if_true, Option.some.injEq]
      rintro rfl
      exact List.mem_cons_self _ _
    · simp only [GoMap.get?, h, if_false]
      intro hget
      exact List.mem_cons_of_mem _ (ih hget)

theorem GoMap.get?_of_mem {β : Type} (m : GoMap β) (k : String) (v : β) :
    (m.map Prod.fst).Nodup → (k, v) ∈ m → GoMap.get? m k = some v := by
  induction m with
  | nil => simp
  | cons p rest ih =>
    obtain ⟨k0, v0⟩ := p
    intro hnodup hmem
    rw [List.map_cons, List.nodup_cons] at hnodup
    rcases List.mem_cons.mp hmem with heq | hrest
    · cases heq
      simp [GoMap.get?]
    · have hne : k0 ≠ k := by
        rintro rfl
        exact hnodup.1 (List.mem_map.mpr ⟨(k0, v), hrest, rfl⟩)
      simp [GoMap.get?, hne, ih hnodup.2 hrest]

theorem GoMap.mem_set {β : Type} (m : GoMap β) (k : String) (v : β) (p : String × β) :
    p ∈ GoMap.set m k v → p = (k, v) ∨ p ∈ m := by
  induction m with
  | nil => simp [GoMap.set]
  | cons q rest ih =>
    obtain ⟨k0, v0⟩ := q
    by_cases h : k0 = k
    · simp only [GoMap.set, h, if_true, List.mem_cons]
      rintro (hp | hp)
      · exact Or.inl hp
      · exact Or.inr (Or.inr hp)
    · simp only [GoMap.set, h, if_false, List.mem_cons]
      rintro (hp | hp)
      · exact Or.inr (Or.inl hp)
      · exact (ih hp).imp id Or.inr

theorem GoMap.mem_keys_set {β : Type} (m : GoMap β) (k k' : String) (v : β) :
    k' ∈ (GoMap.set m k v).map Prod.fst ↔ k' = k ∨ k' ∈ m.map Prod.fst := by
  induction m with
  | nil => simp [GoMap.set]
  | cons q rest ih =>
    obtain ⟨k0, v0⟩ := q
    by_cases h : k0 = k
    · subst h
      simp [GoMap.set]
    · simp only [GoMap.set, h, if_false, List.map_cons, List.mem_cons, ih]
      tauto

theorem GoMap.keys_set_nodup {β : Type} (m : GoMap β) (k : String) (v : β) :
    (m.map Prod.fst).Nodup → ((GoMap.set m k v).map Prod.fst).Nodup := by
  induction m with
  | nil => simp [GoMap.set]
  | cons q rest ih =>
    obtain ⟨k0, v0⟩ := q
    intro hnodup
    rw [List.map_cons, List.nodup_cons] at hnodup
    by_cases h : k0 = k
    · subst h
      simpa [GoMap.set] using hnodup
    · have hset : GoMap.set ((k0, v0) :: rest) k v = (k0, v0) :: GoMap.set rest k v := by
        simp [GoMap.set, h]
      rw [hset, List.map_cons, List.nodup_cons]
      refine ⟨?_, ih hnodup.2⟩
      intro hmem
      rcases (GoMap.mem_keys_set rest k k0 v).mp hmem with heq | hmem'
      · exact h heq
      · exact hnodup.1 hmem'

/-! ## The two-level map -/

theorem WatchedMap.get?_set_same (m : WatchedMap) (zone name : String) (v : WatchedResource) :
    WatchedMap.get? (WatchedMap.set m zone name v) zone name = some v := by
  simp [WatchedMap.get?, WatchedMap.set, WatchedMap.zone, GoMap.get?_set_self]

theorem WatchedMap.get?_set_other (m : WatchedMap) (zone name z n : String) (v : WatchedResource)
    (hne : ¬ (z = zone ∧ n = name)) :
    WatchedMap.get? (WatchedMap.set m zone name v) z n = WatchedMap.get? m z n := by
  by_cases hz : z = zone
  · subst hz
    have hn : n ≠ name := fun h => hne ⟨rfl, h⟩
    simp [WatchedMap.get?, WatchedMap.set, WatchedMap.zone, GoMap.get?_set_self,
      GoMap.get?_set_ne _ _ _ _ hn]
  · simp [WatchedMap.get?, WatchedMap.set, WatchedMap.zone, GoMap.get?_set_ne _ _ _ _ hz]

/-- Creating the inner map of a zone that has none changes no lookup. -/
theorem WatchedMap.get?_ensure (m : WatchedMap) (zone z n : String) :
    WatchedMap.get? (if (GoMap.get? m zone).isSome then m else GoMap.set m zone []) z n
      = WatchedMap.get? m z n := by
  by_cases hsome : (GoMap.get? m zone).isSome
  · simp [hsome]
  · have hnone : GoMap.get? m zone = none := by simpa using hsome
    simp only [hsome, Bool.false_eq_true, if_false]
    by_cases hz : z = zone
    · subst hz
      simp [WatchedMap.get?, WatchedMap.zone, GoMap.get?_set_self, hnone, GoMap.get?]
    · simp [WatchedMap.get?, WatchedMap.zone, GoMap.get?_set_ne _ _ _ _ hz]

theorem InnerOK_zone (m : WatchedMap) (zone : String) (hm : MapOK m) :
    InnerOK zone (WatchedMap.zone m zone) := by
  unfold WatchedMap.zone
  cases hget : GoMap.get? m zone with
  | none => exact ⟨by simp, by simp⟩
  | some inner => exact hm.2 _ (GoMap.mem_of_get? m zone inner hget)

theorem MapOK.key_of_get? {m : WatchedMap} (hm : MapOK m) {z n : String} {e : WatchedResource}
    (hget : WatchedMap.get? m z n = some e) : e.Zone = z ∧ e.Name = n :=
  (InnerOK_zone m z hm).2 (n, e) (GoMap.mem_of_get? _ n e hget)

theorem MapOK.set {m : WatchedMap} (hm : MapOK m) (v : WatchedResource) :
    MapOK (WatchedMap.set m v.Zone v.Name v) := by
  refine ⟨GoMap.keys_set_nodup m _ _ hm.1, ?_⟩
  intro p hp
  rcases GoMap.mem_set m _ _ p hp with rfl | hold
  · have hinner := InnerOK_zone m v.Zone hm
    refine ⟨GoMap.keys_set_nodup _ _ _ hinner.1, ?_⟩
    intro q hq
    rcases GoMap.mem_set _ _ _ q hq with rfl | hq'
    · exact ⟨rfl, rfl⟩
    · exact hinner.2 q hq'
  · exact hm.2 p hold

theorem MapOK.ensure {m : WatchedMap} (hm : MapOK m) (zone : String) :
    MapOK (if (GoMap.get? m zone).isSome then m else GoMap.set m zone []) := by
  by_cases hsome : (GoMap.get? m zone).isSome
  · simpa [hsome] using hm
  · simp only [hsome, Bool.false_eq_true, if_false]
    refine ⟨GoMap.keys_set_nodup m _ _ hm.1, ?_⟩
    intro p hp
    rcases GoMap.mem_set m _ _ p hp with rfl | hold
    · exact ⟨by simp, by simp⟩
    · exact hm.2 p hold

/-- The entry that one step of the merge leaves under the key of the incoming resource. -/
theorem mergeStep_get?_self {W : Type} (env : Env W) (x : WatchedResource) (m : WatchedMap)
    (s : Sys W) :
    WatchedMap.get? (mergeStep env x m s).1 x.Zone x.Name
      = some (match WatchedMap.get? m x.Zone x.Name with
          | none => x
          | some e =>
            match maxTTL env x e with
            | .error _ => e
            | .ok ttl => { e with TTL := ttl }) := by
  unfold mergeStep
  simp only [WatchedMap.get?_ensure]
  cases hget : WatchedMap.get? m x.Zone x.Name with
  | none => simp [WatchedMap.get?_set_same]
  | some e =>
    cases hmax : maxTTL env x e with
    | error err => simp [hmax, WatchedMap.get?_ensure, hget]
    | ok ttl => simp [hmax, WatchedMap.get?_set_same]

/-- One step of the merge changes no other key. -/
theorem mergeStep_get?_ne {W : Type} (env : Env W) (x : WatchedResource) (m : WatchedMap)
    (s : Sys W) (z n : String) (hne : ¬ (z = x.Zone ∧ n = x.Name)) :
    WatchedMap.get? (mergeStep env x m s).1 z n = WatchedMap.get? m z n := by
  unfold mergeStep
  simp only [WatchedMap.get?_ensure]
  cases hget : WatchedMap.get? m x.Zone x.Name with
  | none => simp [WatchedMap.get?_set_other _ _ _ _ _ _ hne, WatchedMap.get?_ensure]
  | some e =>
    cases hmax : maxTTL env x e with
    | error err => simp [hmax, WatchedMap.get?_ensure]
    | ok ttl => simp [hmax, WatchedMap.get?_set_other _ _ _ _ _ _ hne, WatchedMap.get?_ensure]

/-- One step of the merge keeps the map well formed. -/
theorem mergeStep_ok {W : Type} (env : Env W) (x : WatchedResource) (m : WatchedMap)
    (s : Sys W) (hm : MapOK m) : MapOK (mergeStep env x m s).1 := by
  have hm1 := hm.ensure x.Zone
  unfold mergeStep
  simp only [WatchedMap.get?_ensure]
  cases hget : WatchedMap.get? m x.Zone x.Name with
  | none => exact hm1.set x
  | some e =>
    have hkey := hm.key_of_get? hget
    cases hmax : maxTTL env x e with
    | error err =>
      simp only [hmax]
      exact hm1
    | ok ttl =>
      have hset := hm1.set { e with TTL := ttl }
      simp only [hkey.1, hkey.2] at hset
      simp only [hmax]
      exact hset

/-! ## The flattened map -/

theorem WatchedMap.mem_flatten_iff (m : WatchedMap) (e : WatchedResource) :
    e ∈ WatchedMap.flatten m ↔ ∃ p ∈ m, ∃ q ∈ p.2, q.2 = e := by
  simp [WatchedMap.flatten, List.mem_flatMap]

theorem WatchedMap.mem_flatten_of_get? (m : WatchedMap) (z n : String) (e : WatchedResource)
    (hget : WatchedMap.get? m z n = some e) : e ∈ WatchedMap.flatten m := by
  rw [WatchedMap.mem_flatten_iff]
  unfold WatchedMap.get? WatchedMap.zone at hget
  cases hz : GoMap.get? m z with
  | none => simp [hz, GoMap.get?] at hget
  | some inner =>
    rw [hz] at hget
    exact ⟨(z, inner), GoMap.mem_of_get? m z inner hz, (n, e),
      GoMap.mem_of_get? inner n e hget, rfl⟩

theorem MapOK.get?_of_mem_flatten {m : WatchedMap} (hm : MapOK m) {e : WatchedResource}
    (he : e ∈ WatchedMap.flatten m) : WatchedMap.get? m e.Zone e.Name = some e := by
  rw [WatchedMap.mem_flatten_iff] at he
  obtain ⟨p, hp, q, hq, rfl⟩ := he
  obtain ⟨z, inner⟩ := p
  obtain ⟨n, e⟩ := q
  have hinner := hm.2 _ hp
  have hkey := hinner.2 _ hq
  simp only at hkey
  have hz : GoMap.get? m z = some inner := GoMap.get?_of_mem m z inner hm.1 hp
  have hn : GoMap.get? inner n = some e := GoMap.get?_of_mem inner n e hinner.1 hq
  simp [WatchedMap.get?, WatchedMap.zone, hkey.1, hkey.2, hz, hn]

theorem MapOK.tail {p : String × GoMap WatchedResource} {rest : WatchedMap}
    (hm : MapOK (p :: rest)) : MapOK rest := by
  refine ⟨?_, fun q hq => hm.2 q (List.mem_cons_of_mem _ hq)⟩
  have h := hm.1
  rw [List.map_cons, List.nodup_cons] at h
  exact h.2

/-- The keys of the entries of a well-formed map are distinct. -/
theorem MapOK.flatten_nodup {m : WatchedMap} (hm : MapOK m) :
    ((WatchedMap.flatten m).map WatchedResource.key).Nodup := by
  induction m with
  | nil => simp [WatchedMap.flatten]
  | cons p rest ih =>
    have hrest := hm.tail
    have hhead := hm.2 p (List.mem_cons_self _ _)
    have hfresh : p.1 ∉ rest.map Prod.fst := by
      have h := hm.1
      rw [List.map_cons, List.nodup_cons] at h
      exact h.1
    have hsplit : WatchedMap.flatten (p :: rest)
        = p.2.map Prod.snd ++ WatchedMap.flatten rest := by
      simp [WatchedMap.flatten]
    rw [hsplit, List.map_append, List.nodup_append]
    refine ⟨?_, ih hrest, ?_⟩
    · have hcongr : (p.2.map Prod.snd).map WatchedResource.key
          = (p.2.map Prod.fst).map fun n => (p.1, n) := by
        rw [List.map_map, List.map_map]
        apply List.map_congr_left
        intro q hq
        have hkey := hhead.2 q hq
        simp [WatchedResource.key, hkey.1, hkey.2]
      rw [hcongr]
      exact hhead.1.map (fun a b hab => (Prod.mk.inj hab).2)
    · intro a ha hb
      have hzone : a.1 = p.1 := by
        obtain ⟨e, he, rfl⟩ := List.mem_map.mp ha
        obtain ⟨q, hq, rfl⟩ := List.mem_map.mp he
        exact (hhead.2 q hq).1
      obtain ⟨e, he, hkey⟩ := List.mem_map.mp hb
      rw [WatchedMap.mem_flatten_iff] at he
      obtain ⟨p', hp', q, hq, rfl⟩ := he
      have hzone' : a.1 = p'.1 := by
        rw [← hkey]
        exact ((hrest.2 p' hp').2 q hq).1
      exact hfresh (List.mem_map.mpr ⟨p', hp', by rw [← hzone', hzone]⟩)

/-! ## The loops of the rebuild -/

theorem mergeStep_fst_indep {W : Type} (env : Env W) (x : WatchedResource) (m : WatchedMap)
    (s s' : Sys W) : (mergeStep env x m s).1 = (mergeStep env x m s').1 := by
  unfold mergeStep
  simp only
  split
  · split <;> rfl
  · rfl

theorem mergeStep_world {W : Type} (env : Env W) (x : WatchedResource) (m : WatchedMap)
    (s : Sys W) : (mergeStep env x m s).2.world = s.world := by
  unfold mergeStep
  simp only
  split
  · split <;> rfl
  · rfl

theorem mergeLoop_fst_indep {W : Type} (env : Env W) (xs : List WatchedResource) :
    ∀ (m : WatchedMap) (s s' : Sys W), (mergeLoop env xs m s).1 = (mergeLoop env xs m s').1 := by
  induction xs with
  | nil => intro m s s'; rfl
  | cons x rest ih =>
    intro m s s'
    simp only [mergeLoop]
    rw [mergeStep_fst_indep env x m s s']
    exact ih _ _ _

theorem mergeLoop_world {W : Type} (env : Env W) (xs : List WatchedResource) :
    ∀ (m : WatchedMap) (s : Sys W), (mergeLoop env xs m s).2.world = s.world := by
  induction xs with
  | nil => intro m s; rfl
  | cons x rest ih =>
    intro m s
    simp only [mergeLoop]
    rw [ih, mergeStep_world]

theorem mergeLoop_ok {W : Type} (env : Env W) (xs : List WatchedResource) :
    ∀ (m : WatchedMap) (s : Sys W), MapOK m → MapOK (mergeLoop env xs m s).1 := by
  induction xs with
  | nil => intro m s hm; exact hm
  | cons x rest ih =>
    intro m s hm
    simp only [mergeLoop]
    exact ih _ _ (mergeStep_ok env x m s hm)

theorem mergeLoop_append {W : Type} (env : Env W) (xs ys : List WatchedResource) :
    ∀ (m : WatchedMap) (s s' : Sys W),
      (mergeLoop env (xs ++ ys) m s).1 = (mergeLoop env ys (mergeLoop env xs m s).1 s').1 := by
  induction xs with
  | nil => intro m s s'; exact mergeLoop_fst_indep env ys m s s'
  | cons x rest ih =>
    intro m s s'
    simp only [List.cons_append, mergeLoop]
    exact ih _ _ _

/-- The map built by the loop over the configs is the merge of the listings of the round. -/
theorem updateLoop_eq_mergeLoop {W : Type} (env : Env W) (projectID : String)
    (configs : List ResourceConfig) :
    ∀ (m : WatchedMap) (s s' : Sys W),
      (updateLoop env projectID configs m s).1
        = (mergeLoop env (listedThisRound env projectID configs s.world) m s').1 := by
  induction configs with
  | nil => intro m s s'; rfl
  | cons config rest ih =>
    intro m s s'
    unfold updateLoop listedThisRound getAuthedClient
    simp only [Sys.call]
    rcases hnew : env.NewClient config.ResourceType s.world with ⟨r1, w1⟩
    cases r1 with
    | error err => simpa using ih _ _ _
    | ok client =>
      simp only
      rcases hauth : env.Auth client w1 with ⟨r2, w2⟩
      cases r2 with
      | some err => simpa using ih _ _ _
      | none =>
        simp only
        rcases hget : env.GetResources client projectID config w2 with ⟨r3, w3⟩
        cases r3 with
        | error err => simpa using ih _ _ _
        | ok listed =>
          simp only
          rw [ih _ _ s', mergeLoop_world,
            mergeLoop_append env _ _ m s' s']
          rw [mergeLoop_fst_indep env (CreateWatchlist listed config.Ttl) m _ s']

theorem updateLoop_ok {W : Type} (env : Env W) (projectID : String)
    (configs : List ResourceConfig) (s : Sys W) :
    MapOK (updateLoop env projectID configs [] s).1 := by
  rw [updateLoop_eq_mergeLoop env projectID configs [] s s]
  exact mergeLoop_ok env _ _ _ ⟨by simp, by simp⟩

/-- A key is in the merged map iff it was there before or one of the merged resources has it. -/
theorem mergeLoop_isSome {W : Type} (env : Env W) (z n : String) (xs : List WatchedResource) :
    ∀ (m : WatchedMap) (s : Sys W),
      (WatchedMap.get? (mergeLoop env xs m s).1 z n).isSome
        ↔ (WatchedMap.get? m z n).isSome ∨ ∃ x ∈ xs, x.Zone = z ∧ x.Name = n := by
  induction xs with
  | nil => intro m s; simp [mergeLoop]
  | cons x rest ih =>
    intro m s
    simp only [mergeLoop, ih, List.mem_cons, exists_eq_or_imp]
    by_cases hkey : z = x.Zone ∧ n = x.Name
    · obtain ⟨rfl, rfl⟩ := hkey
      simp [mergeStep_get?_self]
    · rw [mergeStep_get?_ne env x m s z n hkey]
      have hkey' : ¬ (x.Zone = z ∧ x.Name = n) := fun h => hkey ⟨h.1.symm, h.2.symm⟩
      simp [hkey']

/-! ## Dedup merge: a ttl that does not parse -/

theorem maxTTL_error_of_fail {W : Type} (env : Env W) (resource existing : WatchedResource)
    (hfail : (∃ err, existing.GetDeletionTime env = .error err)
      ∨ (∃ err, resource.GetDeletionTime env = .error err)) :
    ∃ err, maxTTL env resource existing = .error err := by
  unfold maxTTL
  cases hA : resource.GetDeletionTime env with
  | error errA => exact ⟨_, rfl⟩
  | ok timeA =>
    rcases hfail with ⟨err, hB⟩ | ⟨err, hA'⟩
    · simp only [hB]
      exact ⟨_, rfl⟩
    · rw [hA] at hA'
      cases hA'

theorem WatchedMap.zone_isSome_of_get? (m : WatchedMap) (z n : String) (e : WatchedResource)
    (hget : WatchedMap.get? m z n = some e) : (GoMap.get? m z).isSome = true := by
  unfold WatchedMap.get? WatchedMap.zone at hget
  cases hz : GoMap.get? m z with
  | none => simp [hz, GoMap.get?] at hget
  | some inner => rfl

/-- C4: when the incoming resource has a `(zone, name)` that is already present and
`GetDeletionTime` fails for the existing entry or for the incoming resource, the step of the
merge logs one line and leaves the whole map, hence the existing entry with all its fields,
unchanged, and the loop goes on with the remaining resources. -/
theorem merge_keeps_existing_when_ttl_fails {W : Type} (env : Env W)
    (resource existing : WatchedResource) (m : WatchedMap) (s : Sys W)
    (rest : List WatchedResource)
    (hpresent : WatchedMap.get? m resource.Zone resource.Name = some existing)
    (hfail : (∃ err, existing.GetDeletionTime env = .error err)
      ∨ (∃ err, resource.GetDeletionTime env = .error err)) :
    ∃ err, mergeStep env resource m s = (m, s.println err)
      ∧ WatchedMap.get? (mergeStep env resource m s).1 resource.Zone resource.Name
          = some existing
      ∧ mergeLoop env (resource :: rest) m s = mergeLoop env rest m (s.println err) := by
  obtain ⟨err, herr⟩ := maxTTL_error_of_fail env resource existing hfail
  have hzone := WatchedMap.zone_isSome_of_get? m _ _ _ hpresent
  have hstep : mergeStep env resource m s = (m, s.println err) := by
    unfold mergeStep
    simp only [hzone, if_true, hpresent, herr]
  refine ⟨err, hstep, ?_, ?_⟩
  · rw [hstep]
    exact hpresent
  · simp only [mergeLoop, hstep]

/-- Witness of C4: `vm-1` is in the map with the ttl `never`; the incoming `vm-1` with the ttl
`@hourly` leaves it as it is. -/
theorem merge_keeps_existing_when_ttl_fails_witness :
    ∃ err, mergeStep (demoEnv 100 false false []) demoExpired demoMap demoStart
        = (demoMap, demoStart.println err)
      ∧ WatchedMap.get? (mergeStep (demoEnv 100 false false []) demoExpired demoMap demoStart).1
          demoExpired.Zone demoExpired.Name = some { demoExpired with TTL := "never" }
      ∧ mergeLoop (demoEnv 100 false false []) (demoExpired :: [demoFresh]) demoMap demoStart
          = mergeLoop (demoEnv 100 false false []) [demoFresh] demoMap (demoStart.println err) :=
  merge_keeps_existing_when_ttl_fails (demoEnv 100 false false []) demoExpired
    { demoExpired with TTL := "never" } demoMap demoStart [demoFresh] rfl (Or.inl ⟨_, rfl⟩)

/-! ## The watchlist after a rebuild -/

theorem applyFields_world {W : Type} (env : Env W) (reaper : Reaper) (config : ReaperConfig)
    (s : Sys W) : (applyFields env reaper config s).2.world = s.world := by
  unfold applyFields parseSchedule
  by_cases hs : 0 < config.Schedule.utf8ByteSize
  · cases hparse : env.ParseStandard config.Schedule <;> simp [hs, hparse, Sys.println]
  · simp [hs]

theorem updateReaperConfig_perm {W : Type} (env : Env W) (reaper : Reaper)
    (config : ReaperConfig) (s : Sys W) :
    (reaper.UpdateReaperConfig env config s).1.Watchlist.Perm
      (WatchedMap.flatten (mergeLoop env
        (listedThisRound env (reaper.UpdateReaperConfig env config s).1.ProjectID
          config.Resources s.world) [] s).1) := by
  have hmap := updateLoop_eq_mergeLoop env (applyFields env reaper config s).1.ProjectID
    config.Resources [] (applyFields env reaper config s).2 s
  rw [applyFields_world] at hmap
  show (env.mapOrder _ (WatchedMap.flatten (updateLoop env
      (applyFields env reaper config s).1.ProjectID config.Resources []
      (applyFields env reaper config s).2).1)).Perm
    (WatchedMap.flatten (mergeLoop env (listedThisRound env
      (applyFields env reaper config s).1.ProjectID config.Resources s.world) [] s).1)
  rw [← hmap]
  exact env.mapOrder_perm _ _

/-- C6: after `UpdateReaperConfig` a `(zone, name)` is on the watchlist iff a resource with that
zone and name was returned by a `GetResources` call of this round whose client acquisition and
listing both succeeded (`listedThisRound`); and the new watchlist does not depend on the previous
one. -/
theorem update_watches_exactly_the_listed {W : Type} (env : Env W) (reaper : Reaper)
    (config : ReaperConfig) (s : Sys W) :
    (∀ z n : String,
      (∃ e ∈ (reaper.UpdateReaperConfig env config s).1.Watchlist, e.Zone = z ∧ e.Name = n)
        ↔ ∃ x ∈ listedThisRound env (reaper.UpdateReaperConfig env config s).1.ProjectID
            config.Resources s.world, x.Zone = z ∧ x.Name = n)
    ∧ ∀ previous : List WatchedResource,
        (Reaper.UpdateReaperConfig env { reaper with Watchlist := previous } config s).1.Watchlist
          = (reaper.UpdateReaperConfig env config s).1.Watchlist := by
  refine ⟨?_, fun previous => ?_⟩
  · intro z n
    have hperm := updateReaperConfig_perm env reaper config s
    have hok : MapOK (mergeLoop env
        (listedThisRound env (reaper.UpdateReaperConfig env config s).1.ProjectID
          config.Resources s.world) [] s).1 :=
      mergeLoop_ok env _ _ _ ⟨by simp, by simp⟩
    have hsome := mergeLoop_isSome env z n
      (listedThisRound env (reaper.UpdateReaperConfig env config s).1.ProjectID
        config.Resources s.world) [] s
    have hempty : WatchedMap.get? ([] : WatchedMap) z n = none := rfl
    rw [hempty] at hsome
    simp only [Option.isSome_none, Bool.false_eq_true, false_or] at hsome
    rw [← hsome]
    constructor
    · rintro ⟨e, he, rfl, rfl⟩
      rw [hok.get?_of_mem_flatten (hperm.mem_iff.mp he)]
      rfl
    · intro h
      obtain ⟨e, he⟩ := Option.isSome_iff_exists.mp h
      exact ⟨e, hperm.mem_iff.mpr (WatchedMap.mem_flatten_of_get? _ z n e he),
        hok.key_of_get? he⟩
  · unfold Reaper.UpdateReaperConfig applyFields
    by_cases hp : 0 < config.ProjectId.utf8ByteSize
      <;> by_cases hu : 0 < config.Uuid.utf8ByteSize
      <;> by_cases hs : 0 < config.Schedule.utf8ByteSize
      <;> simp [hp, hu, hs]

/-! ## Uniqueness of the keys of the watchlist -/

/-- The sweep keeps a sublist of the watchlist, whatever the clock and the clients answer. -/
theorem sweepLoop_sublist {W : Type} (env : Env W) (projectID : String)
    (l : List WatchedResource) :
    ∀ (acc : List WatchedResource) (s : Sys W),
      ∃ kept, kept.Sublist l ∧ (sweepLoop env projectID l acc s).1 = acc ++ kept := by
  induction l with
  | nil => intro acc s; exact ⟨[], List.Sublist.refl _, by simp [sweepLoop]⟩
  | cons x rest ih =>
    intro acc s
    unfold sweepLoop
    rcases hr : x.IsReadyForDeletion env s with ⟨b, s1⟩
    cases b with
    | false =>
      obtain ⟨kept, hsub, heq⟩ := ih (acc ++ [x]) s1
      exact ⟨x :: kept, hsub.cons₂ x, by simp [heq]⟩
    | true =>
      simp only
      split
      · obtain ⟨kept, hsub, heq⟩ := ih acc _
        exact ⟨kept, hsub.cons x, heq⟩
      · split
        · obtain ⟨kept, hsub, heq⟩ := ih acc _
          exact ⟨kept, hsub.cons x, heq⟩
        · obtain ⟨kept, hsub, heq⟩ := ih acc _
          exact ⟨kept, hsub.cons x, heq⟩

theorem sweepThroughResources_nodup {W : Type} (env : Env W) (reaper : Reaper) (s : Sys W)
    (h : (reaper.Watchlist.map WatchedResource.key).Nodup) :
    ((reaper.SweepThroughResources env s).1.Watchlist.map WatchedResource.key).Nodup := by
  obtain ⟨kept, hsub, heq⟩ := sweepLoop_sublist env reaper.ProjectID reaper.Watchlist [] s
  simp only [Reaper.SweepThroughResources, heq, List.nil_append]
  exact h.sublist (hsub.map _)

theorem updateReaperConfig_nodup {W : Type} (env : Env W) (reaper : Reaper)
    (config : ReaperConfig) (s : Sys W) :
    ((reaper.UpdateReaperConfig env config s).1.Watchlist.map WatchedResource.key).Nodup := by
  have hperm := updateReaperConfig_perm env reaper config s
  have hok : MapOK (mergeLoop env
      (listedThisRound env (reaper.UpdateReaperConfig env config s).1.ProjectID
        config.Resources s.world) [] s).1 :=
    mergeLoop_ok env _ _ _ ⟨by simp, by simp⟩
  exact (hperm.map WatchedResource.key).nodup_iff.mpr hok.flatten_nodup

/-- C5: in every state reachable from `NewReaper` by `UpdateReaperConfig`,
`SweepThroughResources`, `RunOnSchedule` and `FreezeTime`, in any environment, no two entries of
the watchlist have the same `(zone, name)`. -/
theorem watchlist_keys_unique {W : Type} (reaper : Reaper) (h : Reachable W reaper) :
    (reaper.Watchlist.map WatchedResource.key).Nodup := by
  induction h with
  | init => simp [NewReaper]
  | update env config s _ _ => exact updateReaperConfig_nodup env _ config s
  | sweep env s _ ih => exact sweepThroughResources_nodup env _ s ih
  | @run reaper env s next _ hrun ih =>
    unfold Reaper.RunOnSchedule at hrun
    cases hsched : reaper.Schedule with
    | none => simp [hsched] at hrun
    | some schedule =>
      simp only [hsched] at hrun
      by_cases hzero : reaper.lastRun = 0
      · simp only [hzero, if_true, Option.some.injEq] at hrun
        rw [← hrun]
        exact sweepThroughResources_nodup env _ s ih
      · simp only [hzero, if_false] at hrun
        by_cases hlate : schedule.Next reaper.lastRun < (Clock.Now env reaper.Clock s).1
        · simp only [hlate, if_true, Option.some.injEq] at hrun
          rw [← hrun]
          exact sweepThroughResources_nodup env _ _ ih
        · simp only [hlate, if_false, Option.some.injEq] at hrun
          rw [← hrun]
          exact ih
  | @freeze reaper instant _ ih =>
    have hkeys : (reaper.FreezeTime instant).Watchlist.map WatchedResource.key
        = reaper.Watchlist.map WatchedResource.key := by
      simp only [Reaper.FreezeTime, List.map_map]
      rfl
    rw [hkeys]
    exact ih

/-- Witness of C5: the demo provider lists `vm-1` and `vm-2` twice; the state after a rebuild,
a freeze and a sweep is reachable, and its keys are distinct. -/
theorem watchlist_keys_unique_witness :
    ((((((NewReaper.UpdateReaperConfig (demoEnv 100 false false demoInventory) demoConfig
            demoStart).1.FreezeTime 100).SweepThroughResources
              (demoEnv 100 false false demoInventory) demoStart).1).Watchlist).map
      WatchedResource.key).Nodup :=
  watchlist_keys_unique _
    (Reachable.sweep (demoEnv 100 false false demoInventory) demoStart
      (Reachable.freeze 100
        (Reachable.update (demoEnv 100 false false demoInventory) demoConfig demoStart
          Reachable.init)))

/-! ## Dedup merge: the later deletion instant wins -/

theorem getDeletionTime_congr {W : Type} (env : Env W) (x y : WatchedResource)
    (httl : x.TTL = y.TTL) (hcreated : x.TimeCreated = y.TimeCreated) :
    x.GetDeletionTime env = y.GetDeletionTime env := by
  unfold WatchedResource.GetDeletionTime
  rw [httl, hcreated]

theorem maxTTL_ok {W : Type} (env : Env W) (x e : WatchedResource) (dx d : Instant)
    (hx : x.GetDeletionTime env = .ok dx) (he : e.GetDeletionTime env = .ok d) :
    maxTTL env x e = .ok (if d < dx then x.TTL else e.TTL) := by
  unfold maxTTL
  simp only [hx, he]
  split <;> rfl

/-- One step of the merge keeps `MaxWins`. -/
theorem mergeStep_maxWins {W : Type} (env : Env W) (z n : String) (created : Instant)
    (x : WatchedResource) (m : WatchedMap) (s : Sys W) (seen : List WatchedResource)
    (hx : x.Zone = z → x.Name = n →
      x.TimeCreated = created ∧ ∃ d, x.GetDeletionTime env = .ok d)
    (hinv : MaxWins env z n created m seen) :
    MaxWins env z n created (mergeStep env x m s).1 (seen ++ [x]) := by
  by_cases hkey : z = x.Zone ∧ n = x.Name
  · obtain ⟨rfl, rfl⟩ := hkey
    obtain ⟨hcreated, dx, hdx⟩ := hx rfl rfl
    unfold MaxWins at hinv ⊢
    rw [mergeStep_get?_self]
    cases hget : WatchedMap.get? m x.Zone x.Name with
    | none =>
      rw [hget] at hinv
      simp only at hinv ⊢
      refine ⟨hcreated, ⟨x, by simp, rfl, rfl, rfl⟩, dx, hdx, ?_⟩
      intro y hy hz hn
      rcases List.mem_append.mp hy with hseen | hlast
      · exact absurd ⟨hz, hn⟩ (hinv y hseen)
      · rw [List.mem_singleton.mp hlast]
        exact ⟨dx, hdx, le_refl _⟩
    | some e =>
      rw [hget] at hinv
      simp only at hinv
      obtain ⟨hecreated, ⟨y0, hy0, hy0z, hy0n, hy0ttl⟩, d, hd, hall⟩ := hinv
      simp only [maxTTL_ok env x e dx d hdx hd]
      by_cases hlt : d < dx
      · simp only [hlt, if_true]
        have hnew : WatchedResource.GetDeletionTime env { e with TTL := x.TTL } = .ok dx := by
          rw [← hdx]
          exact getDeletionTime_congr env _ _ rfl (hecreated.trans hcreated.symm)
        refine ⟨hecreated, ⟨x, by simp, rfl, rfl, rfl⟩, dx, hnew, ?_⟩
        intro y hy hz hn
        rcases List.mem_append.mp hy with hseen | hlast
        · obtain ⟨dy, hdy, hle⟩ := hall y hseen hz hn
          exact ⟨dy, hdy, le_trans hle (le_of_lt hlt)⟩
        · rw [List.mem_singleton.mp hlast]
          exact ⟨dx, hdx, le_refl _⟩
      · simp only [hlt, if_false]
        refine ⟨hecreated, ⟨y0, List.mem_append_left _ hy0, hy0z, hy0n, hy0ttl⟩, d, hd, ?_⟩
        intro y hy hz hn
        rcases List.mem_append.mp hy with hseen | hlast
        · exact hall y hseen hz hn
        · rw [List.mem_singleton.mp hlast]
          exact ⟨dx, hdx, not_lt.mp hlt⟩
  · have hkey' : ¬ (x.Zone = z ∧ x.Name = n) := fun h => hkey ⟨h.1.symm, h.2.symm⟩
    unfold MaxWins at hinv ⊢
    rw [mergeStep_get?_ne env x m s z n hkey]
    cases hget : WatchedMap.get? m z n with
    | none =>
      rw [hget] at hinv
      simp only at hinv ⊢
      intro y hy
      rcases List.mem_append.mp hy with hseen | hlast
      · exact hinv y hseen
      · rw [List.mem_singleton.mp hlast]
        exact hkey'
    | some e =>
      rw [hget] at hinv
      simp only at hinv ⊢
      obtain ⟨hecreated, ⟨y0, hy0, hy0z, hy0n, hy0ttl⟩, d, hd, hall⟩ := hinv
      refine ⟨hecreated, ⟨y0, List.mem_append_left _ hy0, hy0z, hy0n, hy0ttl⟩, d, hd, ?_⟩
      intro y hy hz hn
      rcases List.mem_append.mp hy with hseen | hlast
      · exact hall y hseen hz hn
      · rw [List.mem_singleton.mp hlast] at hz hn
        exact absurd ⟨hz, hn⟩ hkey'

/-- The loop of the merge keeps `MaxWins`. -/
theorem mergeLoop_maxWins {W : Type} (env : Env W) (z n : String) (created : Instant)
    (xs : List WatchedResource) :
    (∀ x ∈ xs, x.Zone = z → x.Name = n →
      x.TimeCreated = created ∧ ∃ d, x.GetDeletionTime env = .ok d) →
    ∀ (m : WatchedMap) (s : Sys W) (seen : List WatchedResource),
      MaxWins env z n created m seen →
      MaxWins env z n created (mergeLoop env xs m s).1 (seen ++ xs) := by
  induction xs with
  | nil => intro _ m s seen hinv; simpa [mergeLoop] using hinv
  | cons x rest ih =>
    intro hxs m s seen hinv
    have hstep := mergeStep_maxWins env z n created x m s seen
      (hxs x (List.mem_cons_self _ _)) hinv
    have hrest := ih (fun y hy => hxs y (List.mem_cons_of_mem _ hy)) _
      (mergeStep env x m s).2 _ hstep
    simpa [mergeLoop] using hrest

/-- In a list with distinct keys, the entries with the key of a member are that member alone. -/
theorem filter_key_eq_singleton (l : List WatchedResource) (e : WatchedResource)
    (z n : String) (hkey : e.Zone = z ∧ e.Name = n)
    (hnodup : (l.map WatchedResource.key).Nodup) (hmem : e ∈ l) :
    l.filter (fun e' => decide (e'.Zone = z ∧ e'.Name = n)) = [e] := by
  induction l with
  | nil => cases hmem
  | cons a rest ih =>
    rw [List.map_cons, List.nodup_cons] at hnodup
    rcases List.mem_cons.mp hmem with heq | hrest
    · subst heq
      have hnone : rest.filter (fun e' => decide (e'.Zone = z ∧ e'.Name = n)) = [] := by
        rw [List.filter_eq_nil_iff]
        intro e' he' hk
        have hk' : e'.Zone = z ∧ e'.Name = n := by simpa using hk
        apply hnodup.1
        refine List.mem_map.mpr ⟨e', he', ?_⟩
        simp [WatchedResource.key, hk'.1, hk'.2, hkey.1, hkey.2]
      rw [List.filter_cons, if_pos (decide_eq_true hkey), hnone]
    · have hne : ¬ (a.Zone = z ∧ a.Name = n) := by
        intro hk
        apply hnodup.1
        refine List.mem_map.mpr ⟨e, hrest, ?_⟩
        simp [WatchedResource.key, hk.1, hk.2, hkey.1, hkey.2]
      rw [List.filter_cons, if_neg (fun h => hne (of_decide_eq_true h)), ih hnodup.2 hrest]

/-- After a rebuild, a key whose listings agree on the creation time and have ttls that parse
has one entry, and the deletion instant of that entry is the latest among the listings. -/
theorem updateReaperConfig_latest {W : Type} (env : Env W) (reaper : Reaper)
    (config : ReaperConfig) (s : Sys W) (z n : String) (created : Instant)
    (hsame : ∀ x ∈ listedThisRound env (reaper.UpdateReaperConfig env config s).1.ProjectID
      config.Resources s.world, x.Zone = z → x.Name = n → x.TimeCreated = created)
    (hparse : ∀ x ∈ listedThisRound env (reaper.UpdateReaperConfig env config s).1.ProjectID
      config.Resources s.world, x.Zone = z → x.Name = n → ∃ d, x.GetDeletionTime env = .ok d)
    (hlisted : ∃ x ∈ listedThisRound env (reaper.UpdateReaperConfig env config s).1.ProjectID
      config.Resources s.world, x.Zone = z ∧ x.Name = n) :
    ∃ e d, e ∈ (reaper.UpdateReaperConfig env config s).1.Watchlist
      ∧ e.Zone = z ∧ e.Name = n
      ∧ (∀ e' ∈ (reaper.UpdateReaperConfig env config s).1.Watchlist,
          e'.Zone = z → e'.Name = n → e' = e)
      ∧ (reaper.UpdateReaperConfig env config s).1.Watchlist.filter
          (fun e' => decide (e'.Zone = z ∧ e'.Name = n)) = [e]
      ∧ e.GetDeletionTime env = .ok d
      ∧ (∃ x ∈ listedThisRound env (reaper.UpdateReaperConfig env config s).1.ProjectID
          config.Resources s.world,
          x.Zone = z ∧ x.Name = n ∧ x.TTL = e.TTL ∧ x.GetDeletionTime env = .ok d)
      ∧ ∀ x ∈ listedThisRound env (reaper.UpdateReaperConfig env config s).1.ProjectID
          config.Resources s.world,
          x.Zone = z → x.Name = n → ∃ dx, x.GetDeletionTime env = .ok dx ∧ dx ≤ d := by
  have hperm := updateReaperConfig_perm env reaper config s
  have hok : MapOK (mergeLoop env
      (listedThisRound env (reaper.UpdateReaperConfig env config s).1.ProjectID
        config.Resources s.world) [] s).1 :=
    mergeLoop_ok env _ _ _ ⟨by simp, by simp⟩
  have hstart : MaxWins env z n created ([] : WatchedMap) [] := by
    unfold MaxWins
    have hempty : WatchedMap.get? ([] : WatchedMap) z n = none := rfl
    rw [hempty]
    simp
  have hinv := mergeLoop_maxWins env z n created _
    (fun x hx hz hn => ⟨hsame x hx hz hn, hparse x hx hz hn⟩) [] s [] hstart
  rw [List.nil_append] at hinv
  unfold MaxWins at hinv
  cases hget : WatchedMap.get? (mergeLoop env
      (listedThisRound env (reaper.UpdateReaperConfig env config s).1.ProjectID
        config.Resources s.world) [] s).1 z n with
  | none =>
    rw [hget] at hinv
    obtain ⟨x, hx, hkey⟩ := hlisted
    exact absurd hkey (hinv x hx)
  | some e =>
    rw [hget] at hinv
    obtain ⟨hecreated, ⟨x0, hx0, hx0z, hx0n, hx0ttl⟩, d, hd, hall⟩ := hinv
    have hkey := hok.key_of_get? hget
    have hmem : e ∈ (reaper.UpdateReaperConfig env config s).1.Watchlist :=
      hperm.mem_iff.mpr (WatchedMap.mem_flatten_of_get? _ z n e hget)
    refine ⟨e, d, hmem, hkey.1, hkey.2, ?_, ?_, hd, ⟨x0, hx0, hx0z, hx0n, hx0ttl, ?_⟩, hall⟩
    · intro e' he' hz hn
      have hget' := hok.get?_of_mem_flatten (hperm.mem_iff.mp he')
      rw [hz, hn, hget] at hget'
      exact (Option.some.inj hget').symm
    · exact filter_key_eq_singleton _ e z n hkey
        (updateReaperConfig_nodup env reaper config s) hmem
    · rw [← hd]
      exact getDeletionTime_congr env _ _ hx0ttl
        ((hsame x0 hx0 hx0z hx0n).trans hecreated.symm)

/-- C3: let the successful queries of one `UpdateReaperConfig` return resources with the key
`(z, n)`, all of them the same resource (same creation time) and all with a ttl that parses.
Then the watchlist has exactly one entry `e` with that key (the entries with that key are the
list `[e]`); its ttl is the ttl of one of the configs that returned the resource, and its
deletion instant `d` is the maximum of the deletion instants under the ttls of all those
configs: it is attained, and none is later.  The order does not matter: any rebuild whose
listings are the same up to their order yields an entry with the same deletion instant `d`. -/
theorem dedup_keeps_latest_deletion {W : Type} (env : Env W) (reaper : Reaper)
    (config : ReaperConfig) (s : Sys W) (z n : String) (created : Instant)
    (hsame : ∀ x ∈ listedThisRound env (reaper.UpdateReaperConfig env config s).1.ProjectID
      config.Resources s.world, x.Zone = z → x.Name = n → x.TimeCreated = created)
    (hparse : ∀ x ∈ listedThisRound env (reaper.UpdateReaperConfig env config s).1.ProjectID
      config.Resources s.world, x.Zone = z → x.Name = n → ∃ d, x.GetDeletionTime env = .ok d)
    (hlisted : ∃ x ∈ listedThisRound env (reaper.UpdateReaperConfig env config s).1.ProjectID
      config.Resources s.world, x.Zone = z ∧ x.Name = n) :
    ∃ e d, e ∈ (reaper.UpdateReaperConfig env config s).1.Watchlist
      ∧ e.Zone = z ∧ e.Name = n
      ∧ (reaper.UpdateReaperConfig env config s).1.Watchlist.filter
          (fun e' => decide (e'.Zone = z ∧ e'.Name = n)) = [e]
      ∧ e.GetDeletionTime env = .ok d
      ∧ (∃ x ∈ listedThisRound env (reaper.UpdateReaperConfig env config s).1.ProjectID
          config.Resources s.world,
          x.Zone = z ∧ x.Name = n ∧ x.TTL = e.TTL ∧ x.GetDeletionTime env = .ok d)
      ∧ (∀ x ∈ listedThisRound env (reaper.UpdateReaperConfig env config s).1.ProjectID
          config.Resources s.world,
          x.Zone = z → x.Name = n → ∃ dx, x.GetDeletionTime env = .ok dx ∧ dx ≤ d)
      ∧ ∀ (reaper' : Reaper) (config' : ReaperConfig) (s' : Sys W),
          (listedThisRound env (reaper'.UpdateReaperConfig env config' s').1.ProjectID
              config'.Resources s'.world).Perm
            (listedThisRound env (reaper.UpdateReaperConfig env config s).1.ProjectID
              config.Resources s.world) →
          ∃ e' ∈ (reaper'.UpdateReaperConfig env config' s').1.Watchlist,
            e'.Zone = z ∧ e'.Name = n ∧ e'.GetDeletionTime env = .ok d := by
  obtain ⟨e, d, hmem, hz, hn, _, hfilter, hd, ⟨x0, hx0, hx0z, hx0n, hx0ttl, hx0d⟩, hall⟩ :=
    updateReaperConfig_latest env reaper config s z n created hsame hparse hlisted
  refine ⟨e, d, hmem, hz, hn, hfilter, hd, ⟨x0, hx0, hx0z, hx0n, hx0ttl, hx0d⟩, hall, ?_⟩
  intro reaper' config' s' hperm
  obtain ⟨e', d', hmem', hz', hn', _, _, hd', ⟨x1, hx1, hx1z, hx1n, _, hx1d⟩, hall'⟩ :=
    updateReaperConfig_latest env reaper' config' s' z n created
      (fun x hx => hsame x (hperm.mem_iff.mp hx))
      (fun x hx => hparse x (hperm.mem_iff.mp hx))
      (by
        obtain ⟨x, hx, hkey⟩ := hlisted
        exact ⟨x, hperm.mem_iff.mpr hx, hkey⟩)
  refine ⟨e', hmem', hz', hn', ?_⟩
  have hle : d' ≤ d := by
    obtain ⟨dx, hdx, hle⟩ := hall x1 (hperm.mem_iff.mp hx1) hx1z hx1n
    rw [hx1d] at hdx
    cases hdx
    exact hle
  have hge : d ≤ d' := by
    obtain ⟨dx, hdx, hle⟩ := hall' x0 (hperm.mem_iff.mpr hx0) hx0z hx0n
    rw [hx0d] at hdx
    cases hdx
    exact hle
  rw [hd', le_antisymm hle hge]

/-- The listings of the demo round: the first config lists the three VMs with ttl `@hourly`, the
second fails, the third lists `vm-1` and `vm-2` again with ttl `@daily`. -/
theorem demo_listedThisRound :
    listedThisRound demoProvider
        (NewReaper.UpdateReaperConfig demoProvider demoConfig demoStart).1.ProjectID
        demoConfig.Resources demoStart.world
      = [{ Name := "vm-1", Zone := "a", TimeCreated := 0, Type_ := 0, TTL := "@hourly",
           Clock := none },
         { Name := "vm-2", Zone := "a", TimeCreated := 0, Type_ := 0, TTL := "@hourly",
           Clock := none },
         { Name := "vm-3", Zone := "b", TimeCreated := 0, Type_ := 0, TTL := "@hourly",
           Clock := none },
         { Name := "vm-1", Zone := "a", TimeCreated := 0, Type_ := 0, TTL := "@daily",
           Clock := none },
         { Name := "vm-2", Zone := "a", TimeCreated := 0, Type_ := 0, TTL := "@daily",
           Clock := none }] := by
  decide

/-- Witness of C3: `vm-1` in zone `a` is listed under the ttl `@hourly` and under the ttl
`@daily`; the watchlist has one entry for it. -/
theorem dedup_keeps_latest_deletion_witness :
    ∃ e d, e ∈ (NewReaper.UpdateReaperConfig demoProvider demoConfig demoStart).1.Watchlist
      ∧ e.Zone = "a" ∧ e.Name = "vm-1"
      ∧ (NewReaper.UpdateReaperConfig demoProvider demoConfig demoStart).1.Watchlist.filter
          (fun e' => decide (e'.Zone = "a" ∧ e'.Name = "vm-1")) = [e]
      ∧ e.GetDeletionTime demoProvider = .ok d
      ∧ (∃ x ∈ listedThisRound demoProvider
            (NewReaper.UpdateReaperConfig demoProvider demoConfig demoStart).1.ProjectID
            demoConfig.Resources demoStart.world,
          x.Zone = "a" ∧ x.Name = "vm-1" ∧ x.TTL = e.TTL
            ∧ x.GetDeletionTime demoProvider = .ok d)
      ∧ (∀ x ∈ listedThisRound demoProvider
            (NewReaper.UpdateReaperConfig demoProvider demoConfig demoStart).1.ProjectID
            demoConfig.Resources demoStart.world,
          x.Zone = "a" → x.Name = "vm-1" →
            ∃ dx, x.GetDeletionTime demoProvider = .ok dx ∧ dx ≤ d)
      ∧ ∀ (reaper' : Reaper) (config' : ReaperConfig) (s' : Sys Nat),
          (listedThisRound demoProvider
              (reaper'.UpdateReaperConfig demoProvider config' s').1.ProjectID
              config'.Resources s'.world).Perm
            (listedThisRound demoProvider
              (NewReaper.UpdateReaperConfig demoProvider demoConfig demoStart).1.ProjectID
              demoConfig.Resources demoStart.world) →
          ∃ e' ∈ (reaper'.UpdateReaperConfig demoProvider config' s').1.Watchlist,
            e'.Zone = "a" ∧ e'.Name = "vm-1" ∧ e'.GetDeletionTime demoProvider = .ok d :=
  dedup_keeps_latest_deletion demoProvider NewReaper demoConfig demoStart "a" "vm-1" 0
    (by
      intro x hx _ _
      rw [demo_listedThisRound] at hx
      simp only [List.mem_cons, List.mem_singleton, List.not_mem_nil, or_false] at hx
      rcases hx with rfl | rfl | rfl | rfl | rfl <;> rfl)
    (by
      intro x hx _ _
      rw [demo_listedThisRound] at hx
      simp only [List.mem_cons, List.mem_singleton, List.not_mem_nil, or_false] at hx
      rcases hx with rfl | rfl | rfl | rfl | rfl <;> exact ⟨_, rfl⟩)
    (by
      rw [demo_listedThisRound]
      exact ⟨_, List.mem_cons_self _ _, rfl, rfl⟩)

/-! ## Discovery: a creation timestamp that does not parse -/

/-- The discovery writes no log line, whatever the service answers. -/
theorem gceZonesLoop_log {W : Type} (client : GCEClient W) (lib : GCELib) (projectID : String)
    (config : ResourceConfig) (zones : List String) :
    ∀ (instances : List Resource) (s : Sys W),
      (gceZonesLoop client lib projectID config zones instances s).2.log = s.log := by
  induction zones with
  | nil => intro instances s; rfl
  | cons zone rest ih =>
    intro instances s
    unfold gceZonesLoop
    simp only [Sys.call]
    rcases hlist : client.InstancesList projectID zone s.world with ⟨r, w1⟩
    cases r with
    | error err => rfl
    | ok items =>
      simp only
      rw [ih]

/-- C11, evaluated: zone `a` lists `vm-1`, whose creation timestamp `yesterday` is not RFC 3339
(`time.Parse` returns an error for it).  `GetResources` returns no error and `vm-1` is in its
result as a resource created at the zero instant, next to `vm-2` whose timestamp parses; no log
line is written, here or on any other input. -/
theorem getResources_swallows_timestamp_error :
    (demoLib.timeParse "yesterday").2 = some "cannot parse yesterday as RFC 3339"
    ∧ (demoGCE.GetResources demoLib "testProject" demoGCEConfig demoStart).1
        = .ok [{ Name := "vm-1", Zone := "a", TimeCreated := 0, Type_ := 0 },
               { Name := "vm-2", Zone := "a", TimeCreated := 60, Type_ := 0 }]
    ∧ (demoGCE.GetResources demoLib "testProject" demoGCEConfig demoStart).2.log = []
    ∧ ∀ (client : GCEClient Nat) (lib : GCELib) (projectID : String) (config : ResourceConfig)
        (s : Sys Nat), (client.GetResources lib projectID config s).2.log = s.log := by
  refine ⟨by decide, rfl, rfl, ?_⟩
  intro client lib projectID config s
  exact gceZonesLoop_log client lib projectID config config.Zones [] s

end ResourceReaper
